import Mathlib

/-!
Verification of `scripts/tokencount.py` (a token-count estimator for a
repository) against its natural-language specification.

The Python program is shallowly embedded below:

* paths are modelled by their root-relative segment lists (`List String`);
  both discovery modes of the program produce only paths of the form
  `root / rel`, so `p.relative_to(root)` always succeeds and `p.name` is the
  last segment of `rel`;
* file contents are `Option (List Nat)` byte lists (`none` models an `OSError`
  raised by `open`/`read` during the binary sniff);
* `p.stat()` results are modelled by `StatResult`: a size, a
  `FileNotFoundError` (the only exception the source catches), or any other
  `OSError` (which the source does not catch, so it escapes the generator);
* Python `int` arithmetic is `Nat`/`Int`; the two float divisions
  `int(size_bytes / 4)` / `int(size_bytes / 3)` and `int((t_low + t_high) / 2)`
  agree with floor division for every operand below 2^53 (every operand
  exactly representable as an IEEE double), so they are embedded as `Nat`
  floor division; the float expression for the percentage spread is embedded
  over `ℚ` with Python's round-half-to-even;
* `str.lower`, `Path.suffix`, `fnmatch.fnmatch` (POSIX `normcase` is the
  identity) and substring tests are implemented below, character by character.
-/

/-- Character constants used by the embedded string functions. -/
def dotChar : Char := '.'

/-- Glob metacharacter `*`. -/
def starChar : Char := '*'

/-- Glob metacharacter `?`. -/
def qmChar : Char := '?'

/-- Glob metacharacter `[`. -/
def lbChar : Char := '['

/-- Glob metacharacter `]`. -/
def rbChar : Char := ']'

/-- Negation marker `!` of a glob character class. -/
def bangChar : Char := '!'

/-- Range marker `-` inside a glob character class. -/
def dashChar : Char := '-'

/-- The empty string. -/
def emptyStr : String := ""

/-- Path separator used by `PurePath.as_posix`. -/
def slashStr : String := "/"

/-- Sentinel extension stored by the source for files with no suffix. -/
def noneExt : String := "<none>"

/-- ASCII lower-casing of one character, modelling Python `str.lower` on the
ASCII file names the program manipulates. -/
def lowerChar (c : Char) : Char :=
  if 65 ≤ c.toNat ∧ c.toNat ≤ 90 then Char.ofNat (c.toNat + 32) else c

/-- Python `s.lower()` (ASCII). -/
def pyLower (s : String) : String :=
  String.mk (s.toList.map lowerChar)

/-- Python `s.startswith(".")` for one path segment. -/
def startsWithDot (s : String) : Bool :=
  match s.toList with
  | [] => false
  | c :: _ => c == dotChar

/-- Whether the first list is letter-for-letter an initial run of the second. -/
def headAgrees : List Char → List Char → Bool
  | [], _ => true
  | _ :: _, [] => false
  | a :: as, b :: bs => a == b && headAgrees as bs

/-- Whether the first list occurs contiguously inside the second. -/
def occursIn (p : List Char) : List Char → Bool
  | [] => headAgrees p []
  | b :: bs => headAgrees p (b :: bs) || occursIn p bs

/-- Python `pat in s` on strings: substring containment. -/
def pySubstr (pat s : String) : Bool :=
  occursIn pat.toList s.toList

/-- Index of the last `.` in a character list, if any (Python `str.rfind`). -/
def lastDotIdx : List Char → Option Nat
  | [] => none
  | c :: cs =>
    match lastDotIdx cs with
    | some i => some (i + 1)
    | none => if c == dotChar then some 0 else none

/-- Python `PurePath.suffix` of a file name: the part of the name from its last
dot on, provided that dot is neither the first nor the last character;
otherwise the empty string. -/
def pySuffix (name : String) : String :=
  match lastDotIdx name.toList with
  | none => emptyStr
  | some i =>
    if 0 < i ∧ i + 1 < name.toList.length then String.mk (name.toList.drop i) else emptyStr

/-- Splitting a glob character-class body at its terminating `]`: the class
members before it and the remainder of the pattern after it. -/
def splitAtRB : List Char → Option (List Char × List Char)
  | [] => none
  | c :: cs =>
    if c == rbChar then some ([], cs)
    else
      match splitAtRB cs with
      | some (pre, rest) => some (c :: pre, rest)
      | none => none

theorem splitAtRB_len : ∀ {cs pre rest : List Char},
    splitAtRB cs = some (pre, rest) → rest.length < cs.length := by
  intro cs
  induction cs with
  | nil => intro pre rest h; simp [splitAtRB] at h
  | cons c cs ih =>
    intro pre rest h
    by_cases hc : (c == rbChar) = true
    · simp only [splitAtRB, hc, if_true] at h
      simp only [Option.some.injEq, Prod.mk.injEq] at h
      simp [← h.2, List.length_cons, Nat.lt_succ_self]
    · simp only [splitAtRB, hc, if_false, Bool.false_eq_true] at h
      cases hs : splitAtRB cs with
      | none => rw [hs] at h; simp at h
      | some pr =>
        obtain ⟨pre2, rest2⟩ := pr
        rw [hs] at h
        simp only [Option.some.injEq, Prod.mk.injEq] at h
        have := ih hs
        have h2 : rest2.length = rest.length := by rw [h.2]
        simp only [List.length_cons]
        omega

/-- Parsing the text after a `[` in a glob pattern, following
`fnmatch.translate`: an optional leading `!` negates the class; a `]` standing
first in the class is a literal member; `none` when no closing `]` exists (the
`[` is then an ordinary character). Returns the negation flag, the class
members, and the rest of the pattern. -/
def globBrack (ps : List Char) : Option (Bool × List Char × List Char) :=
  match ps with
  | [] => none
  | c :: r =>
    if c == bangChar then
      match r with
      | [] => none
      | d :: r2 =>
        if d == rbChar then
          match splitAtRB r2 with
          | some (pre, rest) => some (true, d :: pre, rest)
          | none => none
        else
          match splitAtRB r with
          | some (pre, rest) => some (true, pre, rest)
          | none => none
    else
      if c == rbChar then
        match splitAtRB r with
        | some (pre, rest) => some (false, c :: pre, rest)
        | none => none
      else
        match splitAtRB ps with
        | some (pre, rest) => some (false, pre, rest)
        | none => none

theorem globBrack_len : ∀ {ps : List Char} {neg : Bool} {cls rest : List Char},
    globBrack ps = some (neg, cls, rest) → rest.length < ps.length := by
  intro ps neg cls rest h
  match ps with
  | [] => simp [globBrack] at h
  | c :: r =>
    by_cases hb : (c == bangChar) = true
    · match r with
      | [] => simp [globBrack, hb] at h
      | d :: r2 =>
        by_cases hd : (d == rbChar) = true
        · simp only [globBrack, hb, hd, if_true] at h
          cases hs : splitAtRB r2 with
          | none => rw [hs] at h; simp at h
          | some pr =>
            obtain ⟨pre2, rest2⟩ := pr
            rw [hs] at h
            simp only [Option.some.injEq, Prod.mk.injEq] at h
            have hlen := splitAtRB_len hs
            have h2 : rest2.length = rest.length := by rw [h.2.2]
            simp only [List.length_cons]
            omega
        · simp only [globBrack, hb, hd, if_false, Bool.false_eq_true, if_true] at h
          cases hs : splitAtRB (d :: r2) with
          | none => rw [hs] at h; simp at h
          | some pr =>
            obtain ⟨pre2, rest2⟩ := pr
            rw [hs] at h
            simp only [Option.some.injEq, Prod.mk.injEq] at h
            have hlen := splitAtRB_len hs
            have h2 : rest2.length = rest.length := by rw [h.2.2]
            simp only [List.length_cons] at hlen ⊢
            omega
    · by_cases hc : (c == rbChar) = true
      · simp only [globBrack, hb, hc, Bool.false_eq_true, if_false, if_true] at h
        cases hs : splitAtRB r with
        | none => rw [hs] at h; simp at h
        | some pr =>
          obtain ⟨pre2, rest2⟩ := pr
          rw [hs] at h
          simp only [Option.some.injEq, Prod.mk.injEq] at h
          have hlen := splitAtRB_len hs
          have h2 : rest2.length = rest.length := by rw [h.2.2]
          simp only [List.length_cons]
          omega
      · simp only [globBrack, hb, hc, Bool.false_eq_true, if_false] at h
        cases hs : splitAtRB (c :: r) with
        | none => rw [hs] at h; simp at h
        | some pr =>
          obtain ⟨pre2, rest2⟩ := pr
          rw [hs] at h
          simp only [Option.some.injEq, Prod.mk.injEq] at h
          have hlen := splitAtRB_len hs
          have h2 : rest2.length = rest.length := by rw [h.2.2]
          simp only [List.length_cons] at hlen ⊢
          omega

/-- Membership of a character in a glob character class, with `a-b` ranges;
a `-` with no character after it is a literal member. -/
def classMatches (ch : Char) : List Char → Bool
  | a :: b :: d :: rest =>
    if b == dashChar then (a ≤ ch && ch ≤ d) || classMatches ch rest
    else a == ch || classMatches ch (b :: d :: rest)
  | a :: rest => a == ch || classMatches ch rest
  | [] => false

/-- Glob matching of a whole string against a whole pattern, following Python
`fnmatch.translate`: `*` matches any run of characters (separators included),
`?` any single character, `[...]`/`[!...]` a character class, and a `[` with no
closing `]` is an ordinary character. The recursion is driven by a fuel
counter so that it stays structural (hence kernel-evaluable); every recursive
call shrinks `p.length + s.length` (for the class case by `globBrack_len`),
so fuel `p.length + s.length + 1` always suffices, and `globMatchF_stable`
below proves the result independent of any sufficient fuel. -/
def globMatchF : Nat → List Char → List Char → Bool
  | 0, _, _ => false
  | fuel + 1, p, s =>
    match p, s with
    | [], str => str.isEmpty
    | c :: ps, str =>
      if c == starChar then
        globMatchF fuel ps str ||
          (match str with
           | [] => false
           | _ :: s2 => globMatchF fuel (c :: ps) s2)
      else if c == qmChar then
        match str with
        | [] => false
        | _ :: s2 => globMatchF fuel ps s2
      else if c == lbChar then
        match globBrack ps with
        | none =>
          match str with
          | [] => false
          | d :: s2 => d == c && globMatchF fuel ps s2
        | some (neg, cls, rest) =>
          match str with
          | [] => false
          | d :: s2 =>
            (if neg then !(classMatches d cls) else classMatches d cls) &&
              globMatchF fuel rest s2
      else
        match str with
        | [] => false
        | d :: s2 => d == c && globMatchF fuel ps s2

/-- Any two sufficient fuels give `globMatchF` the same value: the fuel is a
technicality, not part of the matching semantics. -/
theorem globMatchF_stable : ∀ (f1 : Nat), ∀ (f2 : Nat) (p s : List Char),
    p.length + s.length < f1 → p.length + s.length < f2 →
    globMatchF f1 p s = globMatchF f2 p s := by
  intro f1
  induction f1 with
  | zero => intro f2 p s h1 h2; omega
  | succ a ih =>
    intro f2 p s h1 h2
    cases f2 with
    | zero => omega
    | succ b =>
      cases p with
      | nil => rfl
      | cons c ps =>
        simp only [List.length_cons] at h1 h2
        by_cases hst : (c == starChar) = true
        · simp only [globMatchF, hst, if_true]
          have e1 := ih b ps s (by omega) (by omega)
          cases s with
          | nil => simp [e1]
          | cons d s2 =>
            simp only [List.length_cons] at h1 h2
            have e2 := ih b (c :: ps) s2 (by simp only [List.length_cons]; omega)
              (by simp only [List.length_cons]; omega)
            simp [e1, e2]
        · by_cases hqm : (c == qmChar) = true
          · simp only [globMatchF, hst, hqm, if_true, Bool.false_eq_true, if_false]
            cases s with
            | nil => rfl
            | cons d s2 =>
              simp only [List.length_cons] at h1 h2
              exact ih b ps s2 (by omega) (by omega)
          · by_cases hlb : (c == lbChar) = true
            · simp only [globMatchF, hst, hqm, hlb, if_true, Bool.false_eq_true, if_false]
              cases hg : globBrack ps with
              | none =>
                cases s with
                | nil => rfl
                | cons d s2 =>
                  simp only [List.length_cons] at h1 h2
                  have e1 := ih b ps s2 (by omega) (by omega)
                  simp [e1]
              | some trip =>
                obtain ⟨neg, cls, rest⟩ := trip
                cases s with
                | nil => rfl
                | cons d s2 =>
                  simp only [List.length_cons] at h1 h2
                  have hr := globBrack_len hg
                  have e1 := ih b rest s2 (by omega) (by omega)
                  simp [e1]
            · simp only [globMatchF, hst, hqm, hlb, Bool.false_eq_true, if_false]
              cases s with
              | nil => rfl
              | cons d s2 =>
                simp only [List.length_cons] at h1 h2
                have e1 := ih b ps s2 (by omega) (by omega)
                simp [e1]

/-- Glob matching with the sufficient fuel. -/
def globMatch (p s : List Char) : Bool :=
  globMatchF (p.length + s.length + 1) p s

/-- Python `fnmatch.fnmatch(s, pat)` on a POSIX system (where `normcase` is the
identity): anchored glob matching. -/
def fnmatch (s pat : String) : Bool :=
  globMatch pat.toList s.toList

/-- The source's wildcard-metacharacter test:
`any(ch in pat for ch in "*?[]")`. -/
def hasWildcard (pat : String) : Bool :=
  pat.toList.any (fun ch => ch == starChar || ch == qmChar || ch == lbChar || ch == rbChar)

/-- The source's `DEFAULT_EXTS` table: the default extension allow-list. -/
def DEFAULT_EXTS : List String :=
  [".py", ".pyi",
   ".js", ".jsx", ".ts", ".tsx", ".mjs", ".cjs",
   ".java", ".kt", ".kts", ".scala",
   ".go", ".rs", ".c", ".cc", ".cpp", ".h", ".hpp",
   ".sh", ".bash", ".zsh",
   ".json", ".yaml", ".yml", ".toml", ".ini", ".cfg", ".conf",
   ".md", ".rst", ".txt", ".adoc",
   ".sql",
   ".proto", ".graphql"]

/-- The source's `SKIP_FILENAMES` set: exact lockfile names always excluded. -/
def SKIP_FILENAMES : List String :=
  ["package-lock.json",
   "npm-shrinkwrap.json",
   "yarn.lock",
   "pnpm-lock.yaml",
   "pnpm-lock.yml",
   "deno.lock",
   "bun.lockb",
   "bun.lock",
   "Pipfile.lock",
   "poetry.lock",
   "uv.lock",
   "Cargo.lock",
   "Gemfile.lock",
   "composer.lock",
   "go.sum",
   "go.work.sum"]

/-- The `--binary {skip,include}` policy of the command line. -/
inductive BinaryPolicy
  | skip
  | includeBin
deriving DecidableEq, Repr

/-- The resolved filter options of one invocation, as passed by `main` to
`iter_filestats`: the extension allow-list (empty means no extension
filtering), `--include-hidden`, the binary policy, the `--exclude` patterns,
and `--top`. -/
structure Config where
  exts : List String
  include_hidden : Bool
  binary_policy : BinaryPolicy
  exclude_globs : List String
  top : Int
deriving DecidableEq, Repr

/-- Outcome of `p.stat()` for a candidate file: a size (`st_size`), a
`FileNotFoundError` (the one exception the source catches), or any other
`OSError` (which the source leaves uncaught). -/
inductive StatResult
  | ok (st_size : Int)
  | enoent
  | err
deriving DecidableEq, Repr

/-- One candidate file as the environment presents it to the filter stage:
its root-relative path segments (`rel.parts`), the byte content `open`/`read`
would deliver (`none` when they raise an `OSError`), and its `stat` outcome. -/
structure PyFile where
  parts : List String
  content : Option (List Nat)
  stat : StatResult
deriving DecidableEq, Repr

/-- The source's `FileStat` record: the (root-relative) path, the positive
byte size, and the normalized extension. -/
structure FileStat where
  path : List String
  size : Nat
  ext : String
deriving DecidableEq, Repr

/-- What the body of the `iter_filestats` loop does with one candidate:
`continue` (skip), `yield` a record (emit), or let an exception escape
(crash). -/
inductive FileAction
  | skip
  | emit (s : FileStat)
  | crash
deriving DecidableEq, Repr

/-- Python `p.name`: the last path segment. -/
def pname (f : PyFile) : String :=
  f.parts.getLastD emptyStr

/-- Python `rel.as_posix()`: the segments joined by `/`. -/
def relPosix (f : PyFile) : String :=
  String.intercalate slashStr f.parts

/-- The source's `is_probably_binary`: read up to 4096 bytes and look for a
NUL byte; an unreadable file counts as binary. -/
def is_probably_binary (f : PyFile) : Bool :=
  match f.content with
  | none => true
  | some bytes => (bytes.take 4096).contains 0

/-- One `--exclude` pattern applied to a candidate, as in the loop body:
patterns holding a wildcard metacharacter are glob-matched against the
relative path and against the file name; plain patterns are substring-tested
against the file name and the relative path. -/
def excludeMatch (pat name relP : String) : Bool :=
  if hasWildcard pat then fnmatch relP pat || fnmatch name pat
  else pySubstr pat name || pySubstr pat relP

/-- The whole `--exclude` loop: the candidate is skipped as soon as one
pattern matches (`List.any` short-circuits exactly like the `break`). The
source guards the loop with `if exclude_globs:`, which is the identity here
because `any` of an empty list is `false`. -/
def excludedBy (pats : List String) (name relP : String) : Bool :=
  pats.any (fun pat => excludeMatch pat name relP)

/-- Normalized lowercase extension of a candidate (`p.suffix.lower()`). -/
def extOf (f : PyFile) : String :=
  pyLower (pySuffix (pname f))

/-- The body of the `iter_filestats` loop for one candidate path, applying the
source's checks in source order: hidden path segments (unless
`--include-hidden`), the `SKIP_FILENAMES` lockfile list, the `--exclude`
patterns, the extension allow-list (inactive when the configured set is
empty), the binary sniff (only under the `skip` policy), then `p.stat()`:
a `FileNotFoundError` or a non-positive `st_size` skips the file, any other
stat failure is an uncaught exception. The membership test `ext not in exts`
on the Python set is modelled by list membership; `if not st` is dropped
because `os.stat_result` is always truthy. -/
def processFile (cfg : Config) (f : PyFile) : FileAction :=
  if !cfg.include_hidden && f.parts.any startsWithDot then .skip
  else if SKIP_FILENAMES.contains (pname f) then .skip
  else if excludedBy cfg.exclude_globs (pname f) (relPosix f) then .skip
  else if !cfg.exts.isEmpty && !(cfg.exts.contains (extOf f)) then .skip
  else if cfg.binary_policy == BinaryPolicy.skip && is_probably_binary f then .skip
  else
    match f.stat with
    | .enoent => .skip
    | .err => .crash
    | .ok st_size =>
      if st_size ≤ 0 then .skip
      else .emit ⟨f.parts, st_size.toNat, if extOf f == emptyStr then noneExt else extOf f⟩

/-- The source's `iter_filestats` generator, drained by `list(...)` in `main`:
the records of the surviving candidates in order, or `Except.error` when an
uncaught exception escapes the iteration. -/
def iter_filestats (cfg : Config) : List PyFile → Except Unit (List FileStat)
  | [] => .ok []
  | f :: fs =>
    match processFile cfg f with
    | .crash => .error ()
    | .skip => iter_filestats cfg fs
    | .emit s =>
      match iter_filestats cfg fs with
      | .ok rest => .ok (s :: rest)
      | .error e => .error e

/-- The source's `estimate_tokens`: `low = int(bytes / 4)`,
`high = int(bytes / 3)`. For byte counts below 2^53 (every realistic total;
larger ones are not exactly representable in the doubles Python's `/` uses)
`int(b / d)` equals floor division, which is how it is embedded. -/
def estimate_tokens (size_bytes : Nat) : Nat × Nat :=
  (size_bytes / 4, size_bytes / 3)

/-- Stable descending sort by size, modelling
`sorted(stats, key=lambda s: s.size, reverse=True)` (Python's sort is stable;
`reverse=True` keeps ties in their original order, as a stable merge sort
under the `≥`-by-size preorder does). -/
def sortBySizeDesc (stats : List FileStat) : List FileStat :=
  List.mergeSort stats (fun a b => b.size ≤ a.size)

/-- The top-N selection of `main`:
`sorted(stats, key=..., reverse=True)[: max(args.top, 0)]`. -/
def topn (stats : List FileStat) (top : Int) : List FileStat :=
  (sortBySizeDesc stats).take (max top 0).toNat

/-- The summary average of `main`: `int((t_low + t_high) / 2)`, embedded as
floor division (exact for operands below 2^53, see the header comment). -/
def summary_avg (t_low t_high : Nat) : Nat :=
  (t_low + t_high) / 2

/-- Python `round` at a real value: round half to even. The source rounds the
IEEE double holding the spread; the double's representation error is far below
the rounding step for the magnitudes the program prints, so the rational value
is rounded directly. -/
def pyRound (q : ℚ) : Int :=
  if q - Int.floor q < 1 / 2 then Int.floor q
  else if 1 / 2 < q - Int.floor q then Int.floor q + 1
  else if Int.floor q % 2 = 0 then Int.floor q else Int.floor q + 1

/-- The spread of `main` before rounding:
`0.0 if avg == 0 else (t_high - avg) / avg * 100`. -/
def spread_exact (t_low t_high : Nat) : ℚ :=
  if summary_avg t_low t_high = 0 then 0
  else ((t_high : ℚ) - (summary_avg t_low t_high : ℚ)) / (summary_avg t_low t_high : ℚ) * 100

/-- The integer the summary line prints: `int(round(spread))`. -/
def reported_spread (t_low t_high : Nat) : Int :=
  pyRound (spread_exact t_low t_high)

/-- The environment of one invocation: whether the resolved root names an
existing directory, whether `git -C root ls-files` succeeds (git installed and
the root a working copy; impossible when the root does not exist), and the
candidate files each discovery mode would deliver (`os.walk` of a nonexistent
root reports nothing, because `os.walk` swallows the scandir error by
default). -/
structure FSModel where
  root_exists : Bool
  git_ok : Bool
  tracked : List PyFile
  walked : List PyFile
deriving DecidableEq, Repr

/-- Message of the `RuntimeError` raised by `git_tracked_files`. -/
def gitErrMsg : String := "Not a git repo (or git not found). Use --all to scan directory."

/-- First stderr line of the fallback in `main`: `warning: {e}`. -/
def gitWarnLine : String := "warning: Not a git repo (or git not found). Use --all to scan directory."

/-- Second stderr line of the fallback in `main`. -/
def fallbackLine : String := "falling back to --all scan."

/-- The source's `git_tracked_files`: the tracked files, or the
`RuntimeError` it raises when the subprocess fails. -/
def git_tracked_files (fs : FSModel) : Except String (List PyFile) :=
  if fs.git_ok then .ok fs.tracked else .error gitErrMsg

/-- The source's `walk_all_files` (junk-directory pruning is part of the
environment's `walked` list). -/
def walk_all_files (fs : FSModel) : List PyFile :=
  fs.walked

/-- The command-line arguments that reach the pipeline after parsing:
`--all` plus the resolved filter options. `Path(args.path).resolve()` never
raises, so the path itself is absorbed into the `FSModel`. -/
structure Args where
  allFlag : Bool
  cfg : Config
deriving DecidableEq, Repr

/-- What one run observably produces: the exit code, the stderr warning
lines, whether the stdout report was printed, and the headline totals. -/
structure RunOutcome where
  exit_code : Nat
  stderr_lines : List String
  report_printed : Bool
  total_files : Nat
  total_bytes : Nat
deriving DecidableEq, Repr

/-- The source's `main` after argument parsing: candidate collection (with
warning-and-fallback when `git ls-files` fails), filtering, and the report.
`Except.error` models an exception escaping `list(iter_filestats(...))`: the
process dies with a traceback (non-zero exit) before printing anything.
A normal run prints the report and returns 0. -/
def main_model (fs : FSModel) (args : Args) : Except Unit RunOutcome :=
  let pathsWarn : List PyFile × List String :=
    if args.allFlag then (walk_all_files fs, [])
    else
      match git_tracked_files fs with
      | .ok ps => (ps, [])
      | .error _ => (walk_all_files fs, [gitWarnLine, fallbackLine])
  match iter_filestats args.cfg pathsWarn.1 with
  | .error _ => .error ()
  | .ok stats => .ok ⟨0, pathsWarn.2, true, stats.length, (stats.map FileStat.size).sum⟩

/-- The default configuration of a bare invocation: the default extension
allow-list, hidden files rejected, binary policy `skip`, no exclusions,
`--top 10`. -/
def defaultConfig : Config :=
  ⟨DEFAULT_EXTS, false, BinaryPolicy.skip, [], 10⟩

/-- Check (1) of the claimed filter order: hidden-path rejection (unless
hidden files are included). -/
def check_hidden (cfg : Config) (f : PyFile) : Bool :=
  !cfg.include_hidden && f.parts.any startsWithDot

/-- Check (2): exact-filename lockfile rejection. -/
def check_lock (f : PyFile) : Bool :=
  SKIP_FILENAMES.contains (pname f)

/-- Check (3): user exclusion patterns. -/
def check_exclude (cfg : Config) (f : PyFile) : Bool :=
  excludedBy cfg.exclude_globs (pname f) (relPosix f)

/-- Check (4): extension allow-list, skipped when the configured set is
empty. -/
def check_ext (cfg : Config) (f : PyFile) : Bool :=
  !cfg.exts.isEmpty && !(cfg.exts.contains (extOf f))

/-- Check (5): binary sniff, only under binary policy `skip`. -/
def check_binary (cfg : Config) (f : PyFile) : Bool :=
  cfg.binary_policy == BinaryPolicy.skip && is_probably_binary f

/-- The five boolean checks in the order the claim lists them. -/
def checkList (cfg : Config) (f : PyFile) : List Bool :=
  [check_hidden cfg f, check_lock f, check_exclude cfg f, check_ext cfg f,
   check_binary cfg f]

/-- Index of the first failing check, if any: the claim's "rejecting at the
first failing check". -/
def firstFailing : List Bool → Option Nat
  | [] => none
  | b :: rest => if b then some 0 else (firstFailing rest).map (fun i => i + 1)

/-- The record a candidate surviving checks (1)-(5) yields. -/
def emittedRecord (f : PyFile) (st_size : Int) : FileStat :=
  ⟨f.parts, st_size.toNat, if extOf f == emptyStr then noneExt else extOf f⟩

/-- Stage (6) as the code has it: reject on `FileNotFoundError` or a
non-positive size; any other stat failure is an unhandled exception. -/
def statCheckAmended (f : PyFile) : FileAction :=
  match f.stat with
  | .enoent => .skip
  | .err => .crash
  | .ok st_size => if st_size ≤ 0 then .skip else .emit (emittedRecord f st_size)

/-- Stage (6) as the claim words it: reject every unreadable-at-stat file as
well as non-positive sizes. -/
def statCheckClaimed (f : PyFile) : FileAction :=
  match f.stat with
  | .enoent => .skip
  | .err => .skip
  | .ok st_size => if st_size ≤ 0 then .skip else .emit (emittedRecord f st_size)

/-- The claimed pipeline shape, with stage (6) amended: reject at the first
failing check of (1)-(5), otherwise run the stat-based stage. -/
def specProcessAmended (cfg : Config) (f : PyFile) : FileAction :=
  match firstFailing (checkList cfg f) with
  | some _ => .skip
  | none => statCheckAmended f

/-- The pipeline shape exactly as claimed, stage (6) included: a file whose
stat is unreadable is rejected. -/
def specProcessClaimed (cfg : Config) (f : PyFile) : FileAction :=
  match firstFailing (checkList cfg f) with
  | some _ => .skip
  | none => statCheckClaimed f

/-- One exclusion pattern as the claim describes it: glob semantics against
both the filename and the root-relative path when the pattern holds a wildcard
metacharacter, otherwise a plain substring test of the filename or the
relative path. -/
def specPatMatches (pat name relP : String) : Prop :=
  (hasWildcard pat = true ∧ (fnmatch relP pat = true ∨ fnmatch name pat = true)) ∨
  (hasWildcard pat = false ∧ (pySubstr pat name = true ∨ pySubstr pat relP = true))

/-- The configuration of `--no-ext-filter --binary include`: no extension
filtering, binaries included. -/
def cfgAllFiles : Config :=
  ⟨[], false, BinaryPolicy.includeBin, [], 10⟩

/-- The configuration of a default run with `--binary include`. -/
def cfgIncludeBinary : Config :=
  ⟨DEFAULT_EXTS, false, BinaryPolicy.includeBin, [], 10⟩

/-- C1: for every byte count b, the token estimate is
`(floor (b/4), floor (b/3))`, the low bound never exceeds the high bound, and
both are 0 at b = 0. -/
theorem c1_estimate_tokens : ∀ b : Nat,
    (estimate_tokens b).1 = b / 4 ∧ (estimate_tokens b).2 = b / 3 ∧
    (estimate_tokens b).1 ≤ (estimate_tokens b).2 ∧
    (b = 0 → (estimate_tokens b).1 = 0 ∧ (estimate_tokens b).2 = 0) := by
  intro b
  refine ⟨rfl, rfl, ?_, ?_⟩
  · exact Nat.div_le_div_left (by omega) (by omega)
  · rintro rfl
    exact ⟨rfl, rfl⟩

/-- Witness for C1 at b = 0 and b = 400. -/
theorem c1_estimate_tokens_w :
    (estimate_tokens 0).1 = 0 ∧ (estimate_tokens 0).2 = 0 ∧
    (estimate_tokens 400).1 ≤ (estimate_tokens 400).2 :=
  ⟨((c1_estimate_tokens 0).2.2.2 rfl).1, ((c1_estimate_tokens 0).2.2.2 rfl).2,
   (c1_estimate_tokens 400).2.2.1⟩

/-- C7: a candidate named `yarn.lock`, of any content and any stat outcome, is
skipped under the default filters; a run whose only candidate is that file
reports zero files and zero bytes. -/
theorem c7_yarn_lock_excluded : ∀ (content : Option (List Nat)) (st : StatResult),
    processFile defaultConfig ⟨["yarn.lock"], content, st⟩ = FileAction.skip
    ∧ iter_filestats defaultConfig [⟨["yarn.lock"], content, st⟩] = Except.ok []
    ∧ main_model ⟨true, true, [⟨["yarn.lock"], content, st⟩], []⟩ ⟨false, defaultConfig⟩ =
        Except.ok ⟨0, [], true, 0, 0⟩ := by
  intro content st
  exact ⟨rfl, rfl, rfl⟩

/-- C10: the lockfile skip list is matched case-sensitively: `Yarn.lock` is
not in the list and (under `--no-ext-filter --binary include`, which lets the
later stages pass too) is emitted, while the same file named `yarn.lock` is
skipped. -/
theorem c10_lockfile_case_sensitive :
    SKIP_FILENAMES.contains "Yarn.lock" = false
    ∧ processFile cfgAllFiles ⟨["Yarn.lock"], some [104], StatResult.ok 5⟩ =
        FileAction.emit ⟨["Yarn.lock"], 5, ".lock"⟩
    ∧ processFile cfgAllFiles ⟨["yarn.lock"], some [104], StatResult.ok 5⟩ = FileAction.skip := by
  exact ⟨by decide, by decide, by decide⟩

/-- C4 (amended form): the loop body equals the first-failing-check pipeline:
checks (1)-(5) in the claimed order, then the stat stage in its amended
reading (file-not-found or non-positive size rejects, any other stat failure
is an unhandled exception). -/
theorem c4_filter_order : ∀ (cfg : Config) (f : PyFile),
    processFile cfg f = specProcessAmended cfg f := by
  intro cfg f
  unfold processFile specProcessAmended checkList check_hidden check_lock check_exclude
    check_ext check_binary
  cases h1 : (!cfg.include_hidden && f.parts.any startsWithDot) <;>
    cases h2 : SKIP_FILENAMES.contains (pname f) <;>
    cases h3 : excludedBy cfg.exclude_globs (pname f) (relPosix f) <;>
    cases h4 : (!cfg.exts.isEmpty && !cfg.exts.contains (extOf f)) <;>
    cases h5 : (cfg.binary_policy == BinaryPolicy.skip && is_probably_binary f) <;> rfl

/-- Counterexample to C4 as stated: a candidate that passes checks (1)-(5)
but whose stat fails with an error other than file-not-found is not rejected
by stage (6); the exception escapes instead. -/
theorem c4_stage6_counterexample :
    processFile cfgIncludeBinary ⟨["src", "a.py"], some [104], StatResult.err⟩ = FileAction.crash
    ∧ specProcessClaimed cfgIncludeBinary ⟨["src", "a.py"], some [104], StatResult.err⟩ =
        FileAction.skip := by
  exact ⟨by decide, by decide⟩

/-- Dropping one skipped candidate anywhere in the list leaves the record
sequence unchanged. -/
theorem iter_filestats_skip (cfg : Config) {f : PyFile}
    (h : processFile cfg f = FileAction.skip) :
    ∀ (pre post : List PyFile),
      iter_filestats cfg (pre ++ f :: post) = iter_filestats cfg (pre ++ post) := by
  intro pre
  induction pre with
  | nil =>
    intro post
    simp only [List.nil_append]
    conv_lhs => rw [iter_filestats]
    simp only [h]
  | cons g gs ih =>
    intro post
    simp only [List.cons_append]
    conv_lhs => rw [iter_filestats]
    conv_rhs => rw [iter_filestats]
    rw [ih post]

/-- C3 (amended form): a file unreadable during the sniff is classified as
binary and, under binary policy `skip`, rejected; a file whose stat fails with
`FileNotFoundError` is rejected under every policy; in both cases the
filtering stage drops exactly that candidate and continues. (A stat failure
other than file-not-found is not handled: see the counterexample.) -/
theorem c3_per_file_errors : ∀ (cfg : Config) (pre post : List PyFile) (f : PyFile),
    (cfg.binary_policy = BinaryPolicy.skip ∧ f.content = none) ∨ f.stat = StatResult.enoent →
    (f.content = none → is_probably_binary f = true)
    ∧ processFile cfg f = FileAction.skip
    ∧ iter_filestats cfg (pre ++ f :: post) = iter_filestats cfg (pre ++ post) := by
  intro cfg pre post f h
  have hbin : f.content = none → is_probably_binary f = true := by
    intro hc
    simp [is_probably_binary, hc]
  have hskip : processFile cfg f = FileAction.skip := by
    rcases h with ⟨hpol, hcont⟩ | hstat
    · have h5 : (cfg.binary_policy == BinaryPolicy.skip && is_probably_binary f) = true := by
        simp [hpol, hbin hcont]
      simp [processFile, h5, ite_self]
    · simp [processFile, hstat, ite_self]
  exact ⟨hbin, hskip, iter_filestats_skip cfg hskip pre post⟩

/-- Witness for C3: an unreadable `a.py` under the default (binary-skip)
configuration is classified binary and silently dropped. -/
theorem c3_per_file_errors_w :
    iter_filestats defaultConfig [⟨["a.py"], none, StatResult.ok 5⟩] = Except.ok []
    ∧ is_probably_binary ⟨["a.py"], none, StatResult.ok 5⟩ = true := by
  have h := c3_per_file_errors defaultConfig [] [] ⟨["a.py"], none, StatResult.ok 5⟩
    (Or.inl ⟨rfl, rfl⟩)
  exact ⟨h.2.2.trans rfl, h.1 rfl⟩

/-- Counterexample to C3 as stated: a stat failure other than file-not-found
(here under `--binary include`, so the sniff never runs) is not silently
dropped; the whole iteration aborts with the uncaught exception. -/
theorem c3_stat_error_counterexample :
    iter_filestats cfgIncludeBinary [⟨["notes.md"], some [110], StatResult.err⟩] =
      Except.error ()
    ∧ processFile cfgIncludeBinary ⟨["notes.md"], some [110], StatResult.err⟩ =
        FileAction.crash := by
  exact ⟨rfl, by decide⟩

/-- One pattern of the exclusion loop matches exactly when the claim's
description of it holds. -/
theorem excludeMatch_iff (pat name relP : String) :
    excludeMatch pat name relP = true ↔ specPatMatches pat name relP := by
  unfold excludeMatch specPatMatches
  by_cases hw : hasWildcard pat = true
  · simp [hw]
  · rw [Bool.not_eq_true] at hw
    simp [hw]

/-- C8: a candidate is excluded exactly when some configured pattern matches
it, where a pattern holding a wildcard metacharacter is glob-matched against
the relative path and the filename and a plain pattern is substring-tested
against the filename and the relative path; any such match (given that the
hidden and lockfile stages pass) makes the loop skip the candidate. -/
theorem c8_exclusion_patterns : ∀ (cfg : Config) (f : PyFile),
    (excludedBy cfg.exclude_globs (pname f) (relPosix f) = true ↔
      ∃ pat ∈ cfg.exclude_globs, specPatMatches pat (pname f) (relPosix f))
    ∧ (check_hidden cfg f = false → check_lock f = false →
        excludedBy cfg.exclude_globs (pname f) (relPosix f) = true →
        processFile cfg f = FileAction.skip) := by
  intro cfg f
  constructor
  · rw [excludedBy, List.any_eq_true]
    constructor
    · rintro ⟨pat, hmem, hmatch⟩
      exact ⟨pat, hmem, (excludeMatch_iff pat (pname f) (relPosix f)).mp hmatch⟩
    · rintro ⟨pat, hmem, hmatch⟩
      exact ⟨pat, hmem, (excludeMatch_iff pat (pname f) (relPosix f)).mpr hmatch⟩
  · intro hh hl hex
    unfold check_hidden at hh
    unfold check_lock at hl
    unfold processFile
    rw [hh, hl, hex]
    rfl

/-- Witness for C8: `--exclude '*.md'` skips `notes.md` although `.md` is on
the default allow-list. -/
theorem c8_exclusion_patterns_w :
    processFile ⟨DEFAULT_EXTS, false, BinaryPolicy.skip, ["*.md"], 10⟩
      ⟨["notes.md"], some [104], StatResult.ok 9⟩ = FileAction.skip := by
  exact (c8_exclusion_patterns ⟨DEFAULT_EXTS, false, BinaryPolicy.skip, ["*.md"], 10⟩
    ⟨["notes.md"], some [104], StatResult.ok 9⟩).2 (by decide) (by decide) (by decide)

/-- Counterexample to C2: with a root that names no existing directory
(`git ls-files` fails, the fallback walk reports nothing) the default
invocation warns on stderr but then prints a report of zero files and exits
with code 0 - it neither exits non-zero nor aborts before the report. -/
theorem c2_invalid_root_counterexample :
    main_model ⟨false, false, [], []⟩ ⟨false, defaultConfig⟩ =
      Except.ok ⟨0, [gitWarnLine, fallbackLine], true, 0, 0⟩ := by
  rfl

/-- C2 (amended form): an invocation whose root path argument does not name
an existing directory does not abort: in tracked mode the two fallback
warnings go to the error stream, in `--all` mode nothing does; either way the
walk of the nonexistent root yields no candidates and the program prints a
report with zero files and zero bytes and exits 0. -/
theorem c2_invalid_root_behaviour : ∀ (fs : FSModel) (args : Args),
    fs.root_exists = false → fs.git_ok = false → fs.walked = [] →
    main_model fs args =
      Except.ok ⟨0, if args.allFlag then [] else [gitWarnLine, fallbackLine], true, 0, 0⟩ := by
  intro fs args _ hgit hwalk
  cases hall : args.allFlag <;>
    simp [main_model, git_tracked_files, walk_all_files, hgit, hwalk, hall, iter_filestats]

/-- Witness for C2's amended form at a concrete environment. -/
theorem c2_invalid_root_behaviour_w :
    main_model ⟨false, false, [⟨["x.py"], some [104], StatResult.ok 4⟩], []⟩
      ⟨true, defaultConfig⟩ = Except.ok ⟨0, [], true, 0, 0⟩ :=
  c2_invalid_root_behaviour ⟨false, false, [⟨["x.py"], some [104], StatResult.ok 4⟩], []⟩
    ⟨true, defaultConfig⟩ rfl rfl rfl

/-- Packing a valid codepoint and unpacking it gives the codepoint back. -/
theorem toNat_charOfNat {n : Nat} (h : n.isValidChar) : (Char.ofNat n).toNat = n := by
  unfold Char.ofNat
  rw [dif_pos h]
  rfl

/-- ASCII lower-casing is idempotent. -/
theorem lowerChar_idem (c : Char) : lowerChar (lowerChar c) = lowerChar c := by
  unfold lowerChar
  by_cases h : 65 ≤ c.toNat ∧ c.toNat ≤ 90
  · rw [if_pos h]
    have hv : (c.toNat + 32).isValidChar := Or.inl (by omega)
    have ht : (Char.ofNat (c.toNat + 32)).toNat = c.toNat + 32 := toNat_charOfNat hv
    rw [ht]
    rw [if_neg (by omega)]
  · rw [if_neg h, if_neg h]

/-- Python-style lower-casing of a whole string is idempotent. -/
theorem pyLower_idem (s : String) : pyLower (pyLower s) = pyLower s := by
  unfold pyLower
  rw [show (String.mk (s.toList.map lowerChar)).toList = s.toList.map lowerChar from rfl]
  rw [List.map_map]
  congr 1
  induction s.toList with
  | nil => rfl
  | cons c cs ihc => simp [ihc, lowerChar_idem]

/-- The character standing at the index `lastDotIdx` reports is a dot. -/
theorem lastDotIdx_drop : ∀ {cs : List Char} {i : Nat},
    lastDotIdx cs = some i → ∃ rest, cs.drop i = dotChar :: rest := by
  intro cs
  induction cs with
  | nil => intro i h; simp [lastDotIdx] at h
  | cons c cs ih =>
    intro i h
    unfold lastDotIdx at h
    cases hs : lastDotIdx cs with
    | some j =>
      rw [hs] at h
      simp only [Option.some.injEq] at h
      obtain ⟨rest, hr⟩ := ih hs
      exact ⟨rest, by rw [← h, List.drop_succ_cons, hr]⟩
    | none =>
      rw [hs] at h
      by_cases hc : (c == dotChar) = true
      · rw [if_pos hc] at h
        simp only [Option.some.injEq] at h
        refine ⟨cs, ?_⟩
        rw [← h, List.drop_zero]
        rw [show c = dotChar from by exact beq_iff_eq.mp hc]
      · rw [if_neg hc] at h
        simp at h

/-- A Python suffix is empty or starts with the dot. -/
theorem pySuffix_shape (name : String) :
    pySuffix name = emptyStr ∨ ∃ rest, (pySuffix name).toList = dotChar :: rest := by
  cases hd : lastDotIdx name.toList with
  | none =>
    left
    unfold pySuffix
    simp only [hd]
  | some i =>
    by_cases hcond : 0 < i ∧ i + 1 < name.toList.length
    · right
      have he : pySuffix name = String.mk (name.toList.drop i) := by
        unfold pySuffix
        simp only [hd]
        rw [if_pos hcond]
      obtain ⟨rest, hr⟩ := lastDotIdx_drop hd
      exact ⟨rest,
        by rw [he, show (String.mk (name.toList.drop i)).toList = name.toList.drop i from rfl, hr]⟩
    · left
      unfold pySuffix
      simp only [hd]
      rw [if_neg hcond]

/-- Every record the loop body emits satisfies the three record invariants:
positive size, lower-case extension, and the extension either the sentinel or
dot-initial. -/
theorem processFile_emit_inv (cfg : Config) (f : PyFile) (s : FileStat)
    (h : processFile cfg f = FileAction.emit s) :
    0 < s.size ∧ pyLower s.ext = s.ext ∧ (s.ext = noneExt ∨ startsWithDot s.ext = true) := by
  unfold processFile at h
  split at h
  next => exact absurd h (by simp)
  next =>
    split at h
    next => exact absurd h (by simp)
    next =>
      split at h
      next => exact absurd h (by simp)
      next =>
        split at h
        next => exact absurd h (by simp)
        next =>
          split at h
          next => exact absurd h (by simp)
          next =>
            split at h
            next => exact absurd h (by simp)
            next => exact absurd h (by simp)
            next st_size =>
              split at h
              next => exact absurd h (by simp)
              next hpos =>
                have hrec := FileAction.emit.inj h
                rw [← hrec]
                refine ⟨by simp; omega, ?_, ?_⟩
                · by_cases he : (extOf f == emptyStr) = true
                  · simp only [he, if_true]
                    decide
                  · simp only [he, Bool.false_eq_true, if_false]
                    exact pyLower_idem (pySuffix (pname f))
                · by_cases he : (extOf f == emptyStr) = true
                  · simp [he]
                  · simp only [he, Bool.false_eq_true, if_false]
                    right
                    rcases pySuffix_shape (pname f) with hemp | ⟨rest, hr⟩
                    · exfalso
                      apply (by simpa using he : extOf f ≠ emptyStr)
                      unfold extOf
                      rw [hemp]
                      rfl
                    · unfold extOf pyLower
                      unfold startsWithDot
                      rw [show (String.mk ((pySuffix (pname f)).toList.map lowerChar)).toList =
                        (pySuffix (pname f)).toList.map lowerChar from rfl]
                      rw [hr]
                      simp only [List.map_cons]
                      rw [show lowerChar dotChar = dotChar from by decide]
                      simp

/-- C9: every record an (exception-free) run of the filter stage emits has a
strictly positive size, a lower-case extension string, and an extension that
is either the no-suffix sentinel or begins with the separator dot. -/
theorem c9_filerecord_invariants : ∀ (cfg : Config) (files : List PyFile)
    (res : List FileStat), iter_filestats cfg files = Except.ok res →
    ∀ r ∈ res, 0 < r.size ∧ pyLower r.ext = r.ext ∧
      (r.ext = noneExt ∨ startsWithDot r.ext = true) := by
  intro cfg files
  induction files with
  | nil =>
    intro res h r hr
    simp only [iter_filestats, Except.ok.injEq] at h
    rw [← h] at hr
    simp at hr
  | cons f fs ih =>
    intro res h r hr
    unfold iter_filestats at h
    cases hp : processFile cfg f with
    | crash => rw [hp] at h; simp at h
    | skip => rw [hp] at h; exact ih res h r hr
    | emit s =>
      rw [hp] at h
      cases hrest : iter_filestats cfg fs with
      | error e => rw [hrest] at h; simp at h
      | ok rest =>
        rw [hrest] at h
        simp only [Except.ok.injEq] at h
        rw [← h] at hr
        rcases List.mem_cons.mp hr with hrs | hm
        · rw [hrs]
          exact processFile_emit_inv cfg f s hp
        · exact ih rest hrest r hm

/-- Witness for C9 at a one-file run under `--no-ext-filter --binary include`
(the emitted record is `A.PY` with size 3 and extension `.py`). -/
theorem c9_filerecord_invariants_w :
    0 < (FileStat.mk ["A.PY"] 3 ".py").size
    ∧ pyLower (FileStat.mk ["A.PY"] 3 ".py").ext = (FileStat.mk ["A.PY"] 3 ".py").ext
    ∧ ((FileStat.mk ["A.PY"] 3 ".py").ext = noneExt
        ∨ startsWithDot (FileStat.mk ["A.PY"] 3 ".py").ext = true) := by
  exact c9_filerecord_invariants cfgAllFiles [⟨["A.PY"], some [104], StatResult.ok 3⟩]
    [FileStat.mk ["A.PY"] 3 ".py"] (by rfl) (FileStat.mk ["A.PY"] 3 ".py") (by simp)

/-- C5: the top-N selection is empty for N ≤ 0, has length `min N total_files`
for N ≥ 0, is sorted by descending size, every selected size dominates every
size left behind, and selection plus remainder is a permutation of the whole
record set. -/
theorem c5_topn : ∀ (stats : List FileStat) (top : Int),
    (top ≤ 0 → topn stats top = [])
    ∧ (0 ≤ top → (topn stats top).length = min top.toNat stats.length)
    ∧ List.Pairwise (fun a b => b.size ≤ a.size) (topn stats top)
    ∧ (∀ x ∈ topn stats top, ∀ y ∈ (sortBySizeDesc stats).drop (max top 0).toNat,
        y.size ≤ x.size)
    ∧ (topn stats top ++ (sortBySizeDesc stats).drop (max top 0).toNat).Perm stats := by
  intro stats top
  have hsorted : List.Pairwise (fun a b => b.size ≤ a.size) (sortBySizeDesc stats) := by
    have h := @List.sorted_mergeSort FileStat (fun a b => decide (b.size ≤ a.size))
      (fun a b c hab hbc => by
        simp only [decide_eq_true_eq] at hab hbc ⊢
        omega)
      (fun a b => by
        simp only [Bool.or_eq_true, decide_eq_true_eq]
        omega)
      stats
    exact h.imp (fun hab => by simpa using hab)
  refine ⟨?_, ?_, ?_, ?_, ?_⟩
  · intro h
    have : (max top 0).toNat = 0 := by omega
    simp [topn, this]
  · intro h
    have : (max top 0).toNat = top.toNat := by omega
    simp [topn, this, sortBySizeDesc]
  · exact List.Pairwise.sublist (List.take_sublist _ _) hsorted
  · intro x hx y hy
    have hsplit := List.take_append_drop (max top 0).toNat (sortBySizeDesc stats)
    have hpw : List.Pairwise (fun a b => b.size ≤ a.size)
        ((sortBySizeDesc stats).take (max top 0).toNat ++
          (sortBySizeDesc stats).drop (max top 0).toNat) := by
      rw [hsplit]
      exact hsorted
    exact (List.pairwise_append.mp hpw).2.2 x hx y hy
  · have hperm : (sortBySizeDesc stats).Perm stats := List.mergeSort_perm stats _
    have heq : topn stats top ++ (sortBySizeDesc stats).drop (max top 0).toNat =
        sortBySizeDesc stats := List.take_append_drop _ _
    rw [heq]
    exact hperm

/-- Witness for C5 at a two-record set with N = 1 and N = -3. -/
theorem c5_topn_w :
    topn [FileStat.mk ["a"] 2 ".a", FileStat.mk ["b"] 7 ".b"] (-3) = []
    ∧ (topn [FileStat.mk ["a"] 2 ".a", FileStat.mk ["b"] 7 ".b"] 1).length =
        min (Int.toNat 1) [FileStat.mk ["a"] 2 ".a", FileStat.mk ["b"] 7 ".b"].length := by
  refine ⟨(c5_topn [FileStat.mk ["a"] 2 ".a", FileStat.mk ["b"] 7 ".b"] (-3)).1 (by omega), ?_⟩
  exact (c5_topn [FileStat.mk ["a"] 2 ".a", FileStat.mk ["b"] 7 ".b"] 1).2.1 (by omega)

/-- Rounding half to even moves a rational by at most a half. -/
theorem pyRound_dist (q : ℚ) : |q - (pyRound q : ℚ)| ≤ 1 / 2 := by
  have hf : ((Int.floor q : Int) : ℚ) ≤ q := Int.floor_le q
  have hf1 : q < (Int.floor q : Int) + 1 := Int.lt_floor_add_one q
  unfold pyRound
  split_ifs with h1 h2 h3
  · rw [abs_le]
    constructor <;> linarith
  · rw [abs_le]
    push_cast
    constructor <;> linarith
  · rw [abs_le]
    constructor <;> linarith
  · rw [abs_le]
    push_cast
    constructor <;> linarith

/-- The rounded value is a nearest integer: no integer is strictly closer. -/
theorem pyRound_nearest (q : ℚ) (m : Int) :
    |q - (pyRound q : ℚ)| ≤ |q - (m : ℚ)| := by
  by_cases hm : m = pyRound q
  · rw [hm]
  · have hne : pyRound q - m ≠ 0 := sub_ne_zero.mpr (fun h => hm h.symm)
    have h1Z : (1 : Int) ≤ |pyRound q - m| := Int.one_le_abs hne
    have h1 : (1 : ℚ) ≤ |(pyRound q : ℚ) - (m : ℚ)| := by exact_mod_cast h1Z
    have hd := pyRound_dist q
    have tri : |(pyRound q : ℚ) - (m : ℚ)| ≤ |(pyRound q : ℚ) - q| + |q - (m : ℚ)| :=
      abs_sub_le _ _ _
    have hcomm : |(pyRound q : ℚ) - q| = |q - (pyRound q : ℚ)| := abs_sub_comm _ _
    linarith

/-- Rounding zero gives zero. -/
theorem pyRound_zero : pyRound 0 = 0 := by
  norm_num [pyRound]

/-- C6: the reported average is `floor ((low + high) / 2)`; the reported
spread is 0 when the average is 0, and otherwise an integer standing at least
as close to `(high - average) / average * 100` as any other integer (the
rounding is Python's round-half-to-even, which is a nearest-integer
rounding). -/
theorem c6_summary_line : ∀ t_low t_high : Nat,
    summary_avg t_low t_high = (t_low + t_high) / 2
    ∧ (summary_avg t_low t_high = 0 → reported_spread t_low t_high = 0)
    ∧ (summary_avg t_low t_high ≠ 0 →
        ∀ m : Int,
          |spread_exact t_low t_high - (reported_spread t_low t_high : ℚ)| ≤
            |spread_exact t_low t_high - (m : ℚ)|) := by
  intro t_low t_high
  refine ⟨rfl, ?_, ?_⟩
  · intro h
    unfold reported_spread spread_exact
    rw [if_pos h]
    exact pyRound_zero
  · intro _ m
    exact pyRound_nearest (spread_exact t_low t_high) m

/-- Witness for C6: at (0,0) the spread is reported as 0; at (1,2) the
reported spread is at least as close to the exact spread as the integer 37
is. -/
theorem c6_summary_line_w :
    reported_spread 0 0 = 0
    ∧ |spread_exact 1 2 - (reported_spread 1 2 : ℚ)| ≤ |spread_exact 1 2 - ((37 : Int) : ℚ)| :=
  ⟨(c6_summary_line 0 0).2.1 rfl, (c6_summary_line 1 2).2.2 (by decide) 37⟩
